import Mathlib

/-!
# Inline template expansion (`content.js`)

A shallow embedding of the keystroke handlers of `content.js`:
`handleSpaceInInput` (flat buffers: `<input>` / `<textarea>`) and
`handleSpaceInContentEditable` (tree-structured editable regions), together
with the parts of the JavaScript and DOM semantics they rely on.

Conventions of the embedding.
* A JavaScript string is a `List Char`; one list element stands for one
  code unit, so `length`, `slice` and `+` are `List.length`, `slice` and `++`.
* DOM nodes are addressed by their path from the root of the tree, written
  innermost index first: `i :: p` is child number `i` of the node at `p`,
  and `[]` is the root.  Node identity (`===`) is equality of paths.
  Trees consist of `Element` nodes and character-data nodes (`Text`,
  `CDATASection`, `ProcessingInstruction`, `Comment`).  The root has no
  parent and no sibling: a `Document` or doctype around a root element has a
  `null` `textContent`, so the lookback walk collects nothing from it.
* Writing `el.value` on a form control goes through the setter of the
  control: a `<textarea>` normalises newlines, an `<input>` runs the value
  sanitization of its type.
* `templates` is a plain object: a property read first consults the own
  properties (the stored templates) and then `Object.prototype`.
* A number is an `Option Int` where a computation can yield `NaN` (`none`).
  Offsets handed to the DOM are converted to `unsigned long`; string lengths
  are below `2 ^ 32` in every engine, so the conversion is the identity on
  the non-negative offsets that occur, `NaN` becomes `0`, and a negative
  number becomes a value above every length.
-/

namespace GptPromptTemplates

/-! ## JavaScript strings -/

/-- A JavaScript string, as its sequence of code units. -/
abbrev JSString := List Char

/-- Relative index resolution of `String.prototype.slice`: a negative index
counts from the end, and the result is clamped to `[0, len]`. -/
def relIndex (len : Nat) (i : Int) : Nat :=
  if i < 0 then (len + i).toNat else min i.toNat len

/-- The two-argument call `s.slice(b, e)`. -/
def slice (s : JSString) (b e : Int) : JSString :=
  (s.take (relIndex s.length e)).drop (relIndex s.length b)

/-- The one-argument call `s.slice(b)`. -/
def sliceFrom (s : JSString) (b : Int) : JSString :=
  s.drop (relIndex s.length b)

/-! ## The trigger matcher `/#([\w-]+)$/` -/

/-- The character class `[\w-]` (no `i` or `u` flag): ASCII letters, digits,
underscore and hyphen. -/
def isTokenChar (c : Char) : Bool :=
  ('A' ≤ c && c ≤ 'Z') || ('a' ≤ c && c ≤ 'z') || ('0' ≤ c && c ≤ '9') ||
    c == '_' || c == '-'

/-- The array returned by a successful `String.prototype.match`:
`m[0]` is `span`, `m[1]` is `token`. -/
structure MatchResult where
  span : JSString
  token : JSString
  deriving DecidableEq, Repr

/-- One attempt of the pattern `#([\w-]+)$` with the match starting at the
first character of `s`.  The group `[\w-]+` is greedy, so it first takes the
whole run of token characters; `$` (no `m` flag) holds only at the end of
the input, and a shorter run leaves a token character before `$`, so
backtracking into the run never succeeds. -/
def matchAt (s : JSString) : Option MatchResult :=
  match s with
  | [] => none
  | c :: rest =>
    if c = '#' then
      let run := rest.takeWhile isTokenChar
      if run ≠ [] ∧ rest.drop run.length = [] then
        some { span := c :: run, token := run }
      else none
    else none

/-- The call `s.match(/#([\w-]+)$/)`: the regular expression is tried at each
start position from left to right and the first success is returned
(`none` is JavaScript's `null`). -/
def regexMatch : JSString → Option MatchResult
  | [] => none
  | c :: rest =>
    match matchAt (c :: rest) with
    | some m => some m
    | none => regexMatch rest

/-! ## The template map -/

/-- The JavaScript values a property read on `templates` can produce. -/
inductive JSValue where
  | undefined
  | string (s : JSString)
  | function (name : JSString) (length : Nat)
  | object
  deriving DecidableEq, Repr

/-- The properties that a plain object inherits from `Object.prototype`,
with the `length` of each built-in function; `__proto__` yields the
prototype object itself. -/
def objectPrototype (key : JSString) : JSValue :=
  if key = "constructor".toList then .function "Object".toList 1
  else if key = "hasOwnProperty".toList then .function key 1
  else if key = "isPrototypeOf".toList then .function key 1
  else if key = "propertyIsEnumerable".toList then .function key 1
  else if key = "toLocaleString".toList then .function key 0
  else if key = "toString".toList then .function key 0
  else if key = "valueOf".toList then .function key 0
  else if key = "__defineGetter__".toList then .function key 2
  else if key = "__defineSetter__".toList then .function key 2
  else if key = "__lookupGetter__".toList then .function key 1
  else if key = "__lookupSetter__".toList then .function key 1
  else if key = "__proto__".toList then .object
  else .undefined

/-- The cached snapshot `templates`: the own properties of a plain object,
each a keyword with the string stored for it by the popup. -/
abbrev Templates := List (JSString × JSString)

/-- The property read `templates[key]`: an own property wins, otherwise the
prototype chain is consulted. -/
def Templates.get (templates : Templates) (key : JSString) : JSValue :=
  match templates.lookup key with
  | some body => .string body
  | none => objectPrototype key

/-- Truthiness of a value, as tested by `!tpl`. -/
def JSValue.truthy : JSValue → Bool
  | .undefined => false
  | .string s => !s.isEmpty
  | .function _ _ => true
  | .object => true

/-- String conversion of a value used as an operand of `+` with a string. -/
def JSValue.toJSString : JSValue → JSString
  | .undefined => "undefined".toList
  | .string s => s
  | .function name _ => "function ".toList ++ name ++ "() \x7b [native code] \x7d".toList
  | .object => "[object Object]".toList

/-- The property read `tpl.length`; `none` is `undefined`, which makes the
arithmetic around it `NaN`. -/
def JSValue.length : JSValue → Option Int
  | .undefined => none
  | .string s => some s.length
  | .function _ n => some n
  | .object => none

/-- Conversion of a number (`none` is `NaN`) to an `unsigned long` offset:
`NaN` becomes `0`; the outer `none` is the wrapped value of a negative
number, which lies above every length. -/
def toUnsignedLong : Option Int → Option Nat
  | none => some 0
  | some n => if n < 0 then none else some n.toNat

/-- The call `el.setSelectionRange(pos, pos)` on a value of length `len`:
the caret it sets, clamped to the length of the value. -/
def setSelectionRange (len : Nat) (pos : Option Int) : Nat :=
  match toUnsignedLong pos with
  | some n => min n len
  | none => len

/-! ## Flat buffers: `handleSpaceInInput` -/

/-- The fields of an `<input>` or `<textarea>` element that the handler
reads and writes: `type` is the IDL attribute (`"textarea"` for a
`<textarea>`), `selectionStart` the caret the control keeps. -/
structure InputElement where
  tagName : String
  type : String
  value : JSString
  selectionStart : Nat
  deriving DecidableEq, Repr

/-- Whether the text selection API applies to the control: to a
`<textarea>` and to an `<input>` of type text, search, url, tel or
password.  On every other `<input>` the getter `selectionStart` returns
`null`. -/
def selectionApplies (el : InputElement) : Bool :=
  el.tagName = "TEXTAREA" ∨
    (el.tagName = "INPUT" ∧
      (el.type = "text" ∨ el.type = "search" ∨ el.type = "url" ∨ el.type = "tel" ∨
        el.type = "password"))

/-- The getter `el.selectionStart` (`none` is `null`). -/
def InputElement.getSelectionStart (el : InputElement) : Option Nat :=
  if selectionApplies el then some el.selectionStart else none

/-- The newline normalisation of a `<textarea>` value, with `afterCR`
telling that the previous character was a `CR`: every `CR` becomes `LF`,
and an `LF` that follows a `CR` is dropped. -/
def normalizeNewlinesFrom : Bool → JSString → JSString
  | _, [] => []
  | afterCR, c :: rest =>
    if c = '\r' then '\n' :: normalizeNewlinesFrom true rest
    else if c = '\n' ∧ afterCR = true then normalizeNewlinesFrom false rest
    else c :: normalizeNewlinesFrom false rest

/-- The newline normalisation of a `<textarea>` value: `CR LF` and a lone
`CR` become `LF`. -/
def normalizeNewlines (s : JSString) : JSString :=
  normalizeNewlinesFrom false s

/-- The step "strip newlines" of the value sanitization: every `LF` and
`CR` is removed. -/
def stripNewlines (s : JSString) : JSString :=
  s.filter (fun c => !(c == '\n' || c == '\r'))

/-- ASCII whitespace: tab, `LF`, form feed, `CR` and space. -/
def isAsciiWhitespace (c : Char) : Bool :=
  c == '\t' || c == '\n' || c == '\x0c' || c == '\r' || c == ' '

/-- The step "strip leading and trailing ASCII whitespace". -/
def stripAsciiWhitespace (s : JSString) : JSString :=
  ((s.dropWhile isAsciiWhitespace).reverse.dropWhile isAsciiWhitespace).reverse

/-- The value a control holds after `el.value = s`: a `<textarea>`
normalises newlines; an `<input>` of type url strips newlines and then
leading and trailing whitespace; an `<input>` of type text, search, tel or
password strips newlines.  The handler writes to no other control, since
it needs a caret to find a match. -/
def storedValue (el : InputElement) (s : JSString) : JSString :=
  if el.tagName = "TEXTAREA" then normalizeNewlines s
  else if el.type = "url" then stripAsciiWhitespace (stripNewlines s)
  else if el.type = "text" ∨ el.type = "search" ∨ el.type = "tel" ∨ el.type = "password" then
    stripNewlines s
  else s

/-- What a handler run leaves behind on a flat buffer: the element, the
number of `input` events dispatched on it, and whether `preventDefault` was
called on the key event. -/
structure InputOutcome where
  el : InputElement
  inputEvents : Nat
  defaultPrevented : Bool
  deriving DecidableEq, Repr

/-- An early `return` of the flat handler: nothing is touched. -/
def InputOutcome.untouched (el : InputElement) : InputOutcome :=
  { el := el, inputEvents := 0, defaultPrevented := false }

/-- The function `handleSpaceInInput(e)` with `e.target = el`. -/
def handleSpaceInInput (templates : Templates) (el : InputElement) : InputOutcome :=
  if ¬ (el.tagName = "TEXTAREA" ∨ el.tagName = "INPUT") then .untouched el
  else
    let pos : Int := (el.getSelectionStart.map Int.ofNat).getD 0
    let textBefore := slice el.value 0 pos
    match regexMatch textBefore with
    | none => .untouched el
    | some m =>
      let key := m.token
      let tpl := templates.get key
      if ¬ tpl.truthy then .untouched el
      else
        let start : Int := pos - m.span.length
        let newText := slice el.value 0 start ++ tpl.toJSString ++ [' '] ++ sliceFrom el.value pos
        let stored := storedValue el newText
        let newPos : Option Int := tpl.length.map (fun n => start + n + 1)
        { el := { el with value := stored,
                          selectionStart := setSelectionRange stored.length newPos },
          inputEvents := 1,
          defaultPrevented := true }

/-! ## The node tree -/

/-- The character-data nodes other than a plain `Text` node. -/
inductive CharacterDataKind where
  | cdataSection
  | processingInstruction
  | comment
  deriving DecidableEq, Repr

/-- A DOM node: a `Text` node with its data, an `Element` with the
properties `isEditable` inspects and its children, or another
character-data node with its data. -/
inductive DomNode where
  | text (data : JSString)
  | element (tagName : String) (type : String) (isContentEditable : Bool)
      (childNodes : List DomNode)
  | charData (kind : CharacterDataKind) (data : JSString)
  deriving Repr

/-- The constant `nodeType` of a character-data node that is not a plain
`Text` node. -/
def CharacterDataKind.nodeType : CharacterDataKind → Nat
  | .cdataSection => 4
  | .processingInstruction => 7
  | .comment => 8

/-- Whether the node implements the `Text` interface: a `CDATASection`
does, a `ProcessingInstruction` and a `Comment` do not. -/
def CharacterDataKind.isText : CharacterDataKind → Bool
  | .cdataSection => true
  | .processingInstruction => false
  | .comment => false

/-- The path of a node from the root of the tree, innermost index first. -/
abbrev NodePath := List Nat

/-- The `childNodes` list of a node (empty for a `Text` node). -/
def DomNode.childNodes : DomNode → List DomNode
  | .text _ => []
  | .element _ _ _ cs => cs
  | .charData _ _ => []

/-- The constant `nodeType` of a node. -/
def DomNode.nodeType : DomNode → Nat
  | .text _ => 3
  | .element _ _ _ _ => 1
  | .charData kind _ => kind.nodeType

/-- The length of a node as used for boundary points: the length of the
data of a character-data node, the number of children of an `Element`. -/
def DomNode.length : DomNode → Nat
  | .text d => d.length
  | .element _ _ _ cs => cs.length
  | .charData _ d => d.length

/-- The same node with another list of children (a character-data node
has none). -/
def DomNode.withChildNodes : DomNode → List DomNode → DomNode
  | .text d, _ => .text d
  | .element tag type ce _, cs => .element tag type ce cs
  | .charData kind d, _ => .charData kind d

mutual
/-- The concatenation of the data of all `Text` nodes (`CDATASection`
included) in a subtree, in tree order; a `ProcessingInstruction` and a
`Comment` contribute nothing.  This is the text (`toString`) of a range
that spans exactly the node. -/
def DomNode.descendantText : DomNode → JSString
  | .text d => d
  | .element _ _ _ cs => descendantTextList cs
  | .charData kind d => if kind.isText then d else []
/-- The concatenation of `descendantText` over a list of siblings. -/
def descendantTextList : List DomNode → JSString
  | [] => []
  | c :: cs => c.descendantText ++ descendantTextList cs
end

/-- The getter `node.textContent`: the data of a character-data node (of a
`Comment` and a `ProcessingInstruction` too), and for an `Element` the
concatenation of the data of all `Text` nodes below it. -/
def DomNode.textContent : DomNode → JSString
  | .text d => d
  | .element _ _ _ cs => descendantTextList cs
  | .charData _ d => d

/-- The concatenation of `textContent` over a list of siblings: what the
lookback walk collects from them. -/
def siblingTextContent : List DomNode → JSString
  | [] => []
  | c :: cs => c.textContent ++ siblingTextContent cs

/-- The node that a path designates in the tree under `root`. -/
def nodeAt (root : DomNode) : NodePath → Option DomNode
  | [] => some root
  | i :: p => (nodeAt root p).bind (fun n => n.childNodes[i]?)

/-- The getter `node.parentNode` (`none` is `null`). -/
def parentNode : NodePath → Option NodePath
  | [] => none
  | _ :: p => some p

/-- The getter `node.parentElement`: the parent when it is an `Element`. -/
def parentElement (root : DomNode) (p : NodePath) : Option NodePath :=
  match parentNode p with
  | none => none
  | some q =>
    match nodeAt root q with
    | some (.element _ _ _ _) => some q
    | _ => none

/-- The getter `node.previousSibling` (`none` is `null`). -/
def previousSibling : NodePath → Option NodePath
  | (i + 1) :: p => some (i :: p)
  | _ => none

/-- The tree with the node at path `p` replaced by `new`. -/
def replaceAt (root : DomNode) : NodePath → DomNode → DomNode
  | [], new => new
  | i :: p, new =>
    match nodeAt root p with
    | some parent => replaceAt root p (parent.withChildNodes (parent.childNodes.set i new))
    | none => root

/-- The setter `el.textContent = s` on the element at path `el`: all
children are removed and, when `s` is not empty, one `Text` node with data
`s` is inserted. -/
def setTextContent (root : DomNode) (el : NodePath) (s : JSString) : DomNode :=
  match nodeAt root el with
  | some n => replaceAt root el (n.withChildNodes (if s.isEmpty then [] else [.text s]))
  | none => root

/-- The function `isEditable(el)`; `none` is a `null` argument. -/
def isEditable : Option DomNode → Bool
  | none => false
  | some (.element tag type ce _) =>
    if tag = "" then false
    else if tag = "TEXTAREA" ∨ (tag = "INPUT" ∧
        (type = "text" ∨ type = "search" ∨ type = "url" ∨ type = "search")) then true
    else if ce then true
    else false
  | some (.text _) => false
  | some (.charData _ _) => false

/-- The loop `while (el && !isEditable(el)) el = el.parentElement`, started
at the element with path `p`. -/
def editableAncestor (root : DomNode) : NodePath → Option NodePath
  | [] => if isEditable (nodeAt root []) then some [] else none
  | i :: p =>
    if isEditable (nodeAt root (i :: p)) then some (i :: p)
    else
      match parentElement root (i :: p) with
      | some _ => editableAncestor root p
      | none => none

/-! ## Ranges -/

/-- The text of the subtree `n` that precedes the boundary point
`(node, off)`, where `rel` is the path of `node` below `n`, outermost index
first. -/
def textBeforeIn : DomNode → List Nat → Nat → JSString
  | .text d, [], off => d.take off
  | .charData kind d, [], off => if kind.isText then d.take off else []
  | .element _ _ _ cs, [], off => descendantTextList (cs.take off)
  | n, i :: rel, off =>
    descendantTextList (n.childNodes.take i) ++
      (match n.childNodes[i]? with
       | some c => textBeforeIn c rel off
       | none => [])

/-- The text of the subtree `n` that follows the boundary point
`(node, off)`, where `rel` is the path of `node` below `n`, outermost index
first. -/
def textAfterIn : DomNode → List Nat → Nat → JSString
  | .text d, [], off => d.drop off
  | .charData kind d, [], off => if kind.isText then d.drop off else []
  | .element _ _ _ cs, [], off => descendantTextList (cs.drop off)
  | n, i :: rel, off =>
    (match n.childNodes[i]? with
     | some c => textAfterIn c rel off
     | none => []) ++
      descendantTextList (n.childNodes.drop (i + 1))

/-- The path of `node` below its ancestor-or-self `el`, outermost index
first. -/
def relativePath (el node : NodePath) : List Nat :=
  (node.take (node.length - el.length)).reverse

/-- Whether `(node, off)` is a boundary point that `setStart` and `setEnd`
accept; they throw an `IndexSizeError` otherwise. -/
def validBoundary (root : DomNode) (node : NodePath) (off : Nat) : Bool :=
  match nodeAt root node with
  | some n => decide (off ≤ n.length)
  | none => false

/-- The calls `r.selectNodeContents(el); r.setEnd(node, off); r.toString()`
for a node inside `el`; `none` when `setEnd` throws. -/
def rangeTextBefore (root : DomNode) (el node : NodePath) (off : Nat) : Option JSString :=
  if validBoundary root node off then
    (nodeAt root el).map (fun n => textBeforeIn n (relativePath el node) off)
  else none

/-- The calls `r.selectNodeContents(el); r.setStart(node, off); r.toString()`
for a node inside `el`; `none` when `setStart` throws. -/
def rangeTextAfter (root : DomNode) (el node : NodePath) (off : Nat) : Option JSString :=
  if validBoundary root node off then
    (nodeAt root el).map (fun n => textAfterIn n (relativePath el node) off)
  else none

mutual
/-- The local function `findTextNode(n)`: the first node with
`nodeType === 3` of the subtree in tree order, as its path below `n`,
outermost index first. -/
def findTextNode : DomNode → Option (List Nat)
  | .text _ => some []
  | .element _ _ _ cs => findTextNodeIn cs 0
  | .charData _ _ => none
/-- The loop `for (let c of n.childNodes)` of `findTextNode`, from child
number `i` on. -/
def findTextNodeIn : List DomNode → Nat → Option (List Nat)
  | [], _ => none
  | c :: cs, i =>
    match findTextNode c with
    | some p => some (i :: p)
    | none => findTextNodeIn cs (i + 1)
end

/-! ## Editable regions: `handleSpaceInContentEditable` -/

/-- The object `window.getSelection()` as the handler reads it. -/
structure Selection where
  anchorNode : NodePath
  anchorOffset : Nat
  deriving DecidableEq, Repr

/-- The page state around one key event: the node tree and the selection;
`selection = none` covers a missing selection, `rangeCount = 0` and a
`null` anchor node. -/
structure Page where
  root : DomNode
  selection : Option Selection

/-- What a handler run leaves behind: the tree, the selection, the targets
of the `input` events dispatched, whether `preventDefault` was called, and
whether the run ended in an uncaught exception. -/
structure EditOutcome where
  root : DomNode
  selection : Option Selection
  inputEvents : List NodePath
  defaultPrevented : Bool
  threw : Bool

/-- An early `return` of the tree handler: nothing is touched. -/
def EditOutcome.untouched (page : Page) : EditOutcome :=
  { root := page.root, selection := page.selection, inputEvents := [],
    defaultPrevented := false, threw := false }

/-- An uncaught exception before any mutation. -/
def EditOutcome.thrown (page : Page) : EditOutcome :=
  { root := page.root, selection := page.selection, inputEvents := [],
    defaultPrevented := false, threw := true }

/-- The constant `maxLookback`. -/
def maxLookback : Nat := 200

/-- The expression `walkerNode.textContent || ''`. -/
def textContentOrEmpty (root : DomNode) (p : NodePath) : JSString :=
  ((nodeAt root p).map DomNode.textContent).getD []

/-- The property `node.length` of the node at a path. -/
def nodeLength (root : DomNode) (p : NodePath) : Nat :=
  ((nodeAt root p).map DomNode.length).getD 0

/-- The initial value of `textBefore` (lines 70-85); `none` when `setEnd`
throws in the range fallback. -/
def initialTextBefore (root : DomNode) (el : NodePath) (sel : Selection) :
    Option JSString :=
  match nodeAt root sel.anchorNode with
  | some (.text d) => some (slice d 0 sel.anchorOffset)
  | some walkingNode =>
    match (if sel.anchorOffset = 0 then none
           else walkingNode.childNodes[sel.anchorOffset - 1]?) with
    | some (.text d) => some d
    | _ => rangeTextBefore root el sel.anchorNode sel.anchorOffset
  | none => none

/-- The loop `while (collected.length < maxLookback)` (lines 90-104), run
for at most `fuel` tests of its condition; `none` when the fuel runs out
before the loop is left. -/
def walkLoop (root : DomNode) (el : NodePath) :
    Nat → NodePath → JSString → Option JSString
  | 0, _, _ => none
  | fuel + 1, walkerNode, collected =>
    if collected.length < maxLookback then
      match previousSibling walkerNode with
      | some prev =>
        let t := textContentOrEmpty root prev
        walkLoop root el fuel prev (sliceFrom (t ++ collected) (-(maxLookback : Int)))
      | none =>
        match parentNode walkerNode with
        | none => some collected
        | some parent =>
          if parent = el then some collected
          else
            let t := textContentOrEmpty root parent
            walkLoop root el fuel parent (sliceFrom (t ++ collected) (-(maxLookback : Int)))
    else some collected

/-- A number of loop tests that always suffices for `walkLoop` started at
`walkerNode`: every iteration moves to a previous sibling or to the parent. -/
def walkFuel (walkerNode : NodePath) : Nat :=
  walkerNode.sum + walkerNode.length + 1

/-- The value of `textBefore` that is matched (line 106); the outer `none`
is a loop that was not left within its fuel, the inner one an exception. -/
def resolveTextBefore (root : DomNode) (el : NodePath) (sel : Selection) :
    Option (Option JSString) :=
  match initialTextBefore root el sel with
  | none => some none
  | some textBefore =>
    (walkLoop root el (walkFuel sel.anchorNode) sel.anchorNode textBefore).map some

/-- The call `range.setStart(node, offset)` on a new range: the offset the
range starts at, or `none` when the call throws. -/
def setStart (root : DomNode) (node : NodePath) (offset : Option Int) : Option Nat :=
  match toUnsignedLong offset with
  | some off => if validBoundary root node off then some off else none
  | none => none

/-- The expression `Math.min(a, b)` with `none` for `NaN`. -/
def mathMin (a : Option Int) (b : Int) : Option Int :=
  a.map (fun x => min x b)

/-- Lines 162-202: the replacement through `preRange` and `afterRange`. -/
def primaryPath (templates : Templates) (page : Page) (el : NodePath) (sel : Selection)
    (m : MatchResult) : EditOutcome :=
  let tpl := templates.get m.token
  match rangeTextBefore page.root el sel.anchorNode sel.anchorOffset with
  | none => .thrown page
  | some preText =>
    let startIndex : Int := (preText.length : Int) - m.span.length
    let postText := (rangeTextAfter page.root el sel.anchorNode sel.anchorOffset).getD []
    let newFull := slice preText 0 startIndex ++ tpl.toJSString ++ [' '] ++ postText
    let root := setTextContent page.root el newFull
    match (nodeAt root el).bind findTextNode with
    | some rel =>
      let firstText := rel.reverse ++ el
      let caretPos : Option Int :=
        tpl.length.map (fun n => ((preText.length : Int) - m.span.length) + n + 1)
      match setStart root firstText (mathMin caretPos (nodeLength root firstText)) with
      | none =>
        { root := root, selection := some ⟨el, 0⟩, inputEvents := [],
          defaultPrevented := false, threw := true }
      | some off =>
        { root := root, selection := some ⟨firstText, off⟩, inputEvents := [el],
          defaultPrevented := true, threw := false }
    | none =>
      { root := root, selection := some ⟨el, 0⟩, inputEvents := [el],
        defaultPrevented := true, threw := false }

/-- Lines 127-155: the `catch` block entered when `r.setStart` throws; it
either finishes the handler or falls through to the primary path. -/
def fallbackPath (templates : Templates) (page : Page) (el : NodePath) (sel : Selection)
    (m : MatchResult) : EditOutcome :=
  let tpl := templates.get m.token
  let lenToDelete : Int := m.span.length
  match rangeTextBefore page.root el sel.anchorNode sel.anchorOffset with
  | none => .thrown page
  | some preText =>
    let idx : Int := (preText.length : Int) - lenToDelete
    if idx ≥ 0 then
      let fullText := slice preText 0 idx ++ tpl.toJSString ++ [' ']
      let root := setTextContent page.root el
        (fullText ++ sliceFrom (textContentOrEmpty page.root el) preText.length)
      match (nodeAt root el).bind (fun n => n.childNodes[0]?) with
      | some _ =>
        let pos : Option Int :=
          tpl.length.map (fun n => (preText.length : Int) - lenToDelete + n + 1)
        match setStart root (0 :: el) pos with
        | none =>
          { root := root, selection := some ⟨el, 0⟩, inputEvents := [],
            defaultPrevented := false, threw := true }
        | some off =>
          { root := root, selection := some ⟨0 :: el, off⟩, inputEvents := [el],
            defaultPrevented := true, threw := false }
      | none =>
        { root := root, selection := some ⟨el, 0⟩, inputEvents := [el],
          defaultPrevented := true, threw := false }
    else primaryPath templates page el sel m

/-- The function `handleSpaceInContentEditable(e)` on a page; `none` only
when the lookback loop was not left within its fuel. -/
def handleSpaceInContentEditable (templates : Templates) (page : Page) :
    Option EditOutcome :=
  match page.selection with
  | none => some (.untouched page)
  | some sel =>
    let node := sel.anchorNode
    match nodeAt page.root node with
    | none => some (.untouched page)
    | some anchor =>
      match (if anchor.nodeType = 1 then some node else parentElement page.root node).bind
          (editableAncestor page.root) with
      | none => some (.untouched page)
      | some el =>
        match resolveTextBefore page.root el sel with
        | none => none
        | some none => some (.thrown page)
        | some (some textBefore) =>
          match regexMatch textBefore with
          | none => some (.untouched page)
          | some m =>
            let tpl := templates.get m.token
            if ¬ tpl.truthy then some (.untouched page)
            else
              let lenToDelete : Int := m.span.length
              match setStart page.root sel.anchorNode
                  (some (max 0 ((sel.anchorOffset : Int) - lenToDelete))) with
              | some _ => some (primaryPath templates page el sel m)
              | none => some (fallbackPath templates page el sel m)

/-! ## Concrete pages -/

/-- The template map `{sig: "Best regards,\nAlex"}`. -/
def sigTemplates : Templates := [("sig".toList, "Best regards,\nAlex".toList)]

/-- Scenario B: `<body><div contenteditable>` with the text nodes `Hi ` and
`team #sig`. -/
def scenarioB : DomNode :=
  .element "BODY" "" false
    [.element "DIV" "" true [.text "Hi ".toList, .text "team #sig".toList]]

/-- An editable `<div>` holding the text nodes `#` and two hundred `a`. -/
def longTokenRegion : DomNode :=
  .element "DIV" "" true [.text ['#'], .text (List.replicate 200 'a')]

/-- An editable `<div>` holding one text node: `#` followed by two hundred
`a`. -/
def longTextRegion : DomNode :=
  .element "DIV" "" true [.text ('#' :: List.replicate 200 'a')]

/-- An editable `<div>` whose only text node `#sig` sits in a
`<span contenteditable="false">`. -/
def nestedLeaf : DomNode :=
  .element "DIV" "" true [.element "SPAN" "" false [.text "#sig".toList]]

/-- The document `<html><head></head><body><p>use #sig</p><div
contenteditable="true"></div></body></html>`: the paragraph `use #sig`
followed by an empty editable `<div>`, which has the path `[1, 1]`. -/
def emptyRegionAfterText : DomNode :=
  .element "HTML" "" false
    [.element "HEAD" "" false [],
     .element "BODY" "" false
       [.element "P" "" false [.text "use #sig".toList], .element "DIV" "" true []]]

/-- The region `<div contenteditable="true">hello #si<!--x-->g</div>`: the
text nodes `hello #si` and `g` with a comment between them. -/
def commentSiblingRegion : DomNode :=
  .element "DIV" "" true
    [.text "hello #si".toList, .charData .comment "x".toList, .text "g".toList]

set_option maxRecDepth 100000

/-! ## Facts about the matcher -/

theorem matchAt_eq_some_iff (t : JSString) (m : MatchResult) :
    matchAt t = some m ↔
      ∃ k, t = '#' :: k ∧ k ≠ [] ∧ (∀ c ∈ k, isTokenChar c = true) ∧ m = ⟨'#' :: k, k⟩ := by
  cases t with
  | nil => simp [matchAt]
  | cons c rest =>
    by_cases hc : c = '#'
    · subst hc
      by_cases hrun : rest.takeWhile isTokenChar ≠ [] ∧
          rest.drop (rest.takeWhile isTokenChar).length = []
      · have hall : rest.takeWhile isTokenChar = rest := by
          have h := List.takeWhile_append_dropWhile isTokenChar rest
          have hlen : rest.length ≤ (rest.takeWhile isTokenChar).length :=
            List.drop_eq_nil_iff.mp hrun.2
          have hpre : rest.takeWhile isTokenChar <+: rest := ⟨_, h⟩
          exact hpre.eq_of_length_le hlen
        have hmem : ∀ c ∈ rest, isTokenChar c = true := List.takeWhile_eq_self_iff.mp hall
        simp only [matchAt, if_pos hrun, if_true]
        constructor
        · intro h
          refine ⟨rest, rfl, ?_, hmem, ?_⟩
          · rw [← hall]; exact hrun.1
          · rw [← Option.some.inj h, hall]
        · rintro ⟨k, hk, -, -, hm⟩
          obtain rfl : rest = k := List.tail_eq_of_cons_eq hk
          rw [hm, hall]
      · simp only [matchAt, if_neg hrun, if_true]
        constructor
        · intro h; cases h
        · rintro ⟨k, hk, hne, hmem, -⟩
          obtain rfl : rest = k := List.tail_eq_of_cons_eq hk
          have hall : rest.takeWhile isTokenChar = rest := List.takeWhile_eq_self_iff.mpr hmem
          exact absurd ⟨by rw [hall]; exact hne, by rw [hall]; simp⟩ hrun
    · simp only [matchAt, if_neg hc]
      constructor
      · intro h; cases h
      · rintro ⟨k, hk, -⟩
        exact absurd (List.head_eq_of_cons_eq hk) hc

theorem matchAt_eq_none_of_hash_inside (c : Char) (s k : JSString) :
    matchAt (c :: (s ++ '#' :: k)) = none := by
  cases h : matchAt (c :: (s ++ '#' :: k)) with
  | none => rfl
  | some m =>
    obtain ⟨k', hk', -, hmem, -⟩ := (matchAt_eq_some_iff _ _).mp h
    obtain rfl : s ++ '#' :: k = k' := List.tail_eq_of_cons_eq hk'
    have := hmem '#' (by simp)
    exact absurd this (by decide)

theorem regexMatch_append_trigger (s k : JSString) (hk : k ≠ [])
    (hmem : ∀ c ∈ k, isTokenChar c = true) :
    regexMatch (s ++ '#' :: k) = some ⟨'#' :: k, k⟩ := by
  induction s with
  | nil =>
    have : matchAt ('#' :: k) = some ⟨'#' :: k, k⟩ :=
      (matchAt_eq_some_iff _ _).mpr ⟨k, rfl, hk, hmem, rfl⟩
    simp [regexMatch, this]
  | cons c s ih =>
    show regexMatch (c :: (s ++ '#' :: k)) = _
    rw [regexMatch, matchAt_eq_none_of_hash_inside]
    exact ih

theorem regexMatch_eq_some (t : JSString) (m : MatchResult) (h : regexMatch t = some m) :
    ∃ s k, t = s ++ '#' :: k ∧ k ≠ [] ∧ (∀ c ∈ k, isTokenChar c = true) ∧
      m = ⟨'#' :: k, k⟩ := by
  induction t with
  | nil => simp [regexMatch] at h
  | cons c rest ih =>
    rw [regexMatch] at h
    cases hm : matchAt (c :: rest) with
    | some m' =>
      rw [hm] at h
      obtain ⟨k, hk, hne, hmem, hm'⟩ := (matchAt_eq_some_iff _ _).mp hm
      exact ⟨[], k, by simpa using hk, hne, hmem, by rw [← Option.some.inj h, hm']⟩
    | none =>
      rw [hm] at h
      obtain ⟨s, k, hs, hne, hmem, hm'⟩ := ih h
      exact ⟨c :: s, k, by simp [hs], hne, hmem, hm'⟩

theorem relIndex_natCast (len n : Nat) : relIndex len (n : Int) = min n len := by
  unfold relIndex
  rw [if_neg (by omega)]
  simp

theorem relIndex_zero (len : Nat) : relIndex len 0 = 0 := by
  simpa using relIndex_natCast len 0

theorem slice_zero_natCast (b : JSString) (c : Nat) : slice b 0 (c : Int) = b.take c := by
  unfold slice
  rw [relIndex_zero, relIndex_natCast, List.drop_zero]
  rcases Nat.le_total c b.length with h | h
  · rw [Nat.min_eq_left h]
  · rw [Nat.min_eq_right h, List.take_of_length_le (Nat.le_refl _), List.take_of_length_le h]

theorem sliceFrom_natCast (b : JSString) (c : Nat) : sliceFrom b (c : Int) = b.drop c := by
  unfold sliceFrom
  rw [relIndex_natCast]
  rcases Nat.le_total c b.length with h | h
  · rw [Nat.min_eq_left h]
  · rw [Nat.min_eq_right h, List.drop_of_length_le (Nat.le_refl _), List.drop_of_length_le h]

theorem length_slice_zero_le (b : JSString) (c : Nat) : (slice b 0 c).length ≤ c := by
  rw [slice_zero_natCast, List.length_take]
  exact Nat.min_le_left _ _

/-- Claim C2.  The matcher `/#([\w-]+)$/`: on `s + "#" + k`, with `k` a
non-empty run of token characters, it yields exactly span `"#" + k` and
token `k`; on every string not of that form it yields no match; so a
returned span is a suffix of the matched text, and in the flat-buffer path,
where the text is `value.slice(0, caret)`, `caret - len(span) ≥ 0`. -/
theorem trigger_matcher_exact :
    (∀ s k : JSString, k ≠ [] → (∀ c ∈ k, isTokenChar c = true) →
        regexMatch (s ++ '#' :: k) = some ⟨'#' :: k, k⟩) ∧
    (∀ t : JSString,
        (¬ ∃ s k : JSString, k ≠ [] ∧ (∀ c ∈ k, isTokenChar c = true) ∧ t = s ++ '#' :: k) →
        regexMatch t = none) ∧
    (∀ (t : JSString) (m : MatchResult), regexMatch t = some m → m.span <:+ t) ∧
    (∀ (b : JSString) (caret : Nat) (m : MatchResult),
        regexMatch (slice b 0 caret) = some m → 0 ≤ (caret : Int) - m.span.length) := by
  refine ⟨regexMatch_append_trigger, ?_, ?_, ?_⟩
  · intro t hno
    cases h : regexMatch t with
    | none => rfl
    | some m =>
      obtain ⟨s, k, ht, hne, hmem, -⟩ := regexMatch_eq_some t m h
      exact absurd ⟨s, k, hne, hmem, ht⟩ hno
  · intro t m h
    obtain ⟨s, k, ht, -, -, hm⟩ := regexMatch_eq_some t m h
    rw [hm, ht]
    exact List.suffix_append s _
  · intro b caret m h
    obtain ⟨s, k, ht, -, -, hm⟩ := regexMatch_eq_some _ m h
    have hlen := length_slice_zero_le b caret
    rw [ht] at hlen
    rw [hm]
    simp only [List.length_append, List.length_cons] at hlen ⊢
    omega

/-- Claim C2 at the text `hello #sig`: the match is `#sig` with token `sig`,
and a text without a trigger gives no match. -/
theorem trigger_matcher_exact_witness :
    regexMatch ("hello ".toList ++ '#' :: "sig".toList) = some ⟨'#' :: "sig".toList, "sig".toList⟩ ∧
    regexMatch "a#b c".toList = none :=
  ⟨trigger_matcher_exact.1 "hello ".toList "sig".toList (by decide) (by decide), by decide⟩

/-! ## Facts about the flat-buffer handler -/

theorem int_sub_natCast_of_le (c n : Nat) (h : n ≤ c) :
    (c : Int) - (n : Int) = ((c - n : Nat) : Int) := by
  omega

/-- The flat handler after a match of `"#" + k`: only the `!tpl` test is
left to decide. -/
theorem tagName_of_selectionApplies (el : InputElement) (hsel : selectionApplies el = true) :
    el.tagName = "TEXTAREA" ∨ el.tagName = "INPUT" := by
  simp only [selectionApplies, decide_eq_true_eq] at hsel
  rcases hsel with h | h
  · exact Or.inl h
  · exact Or.inr h.1

theorem handleSpaceInInput_of_trigger (templates : Templates) (el : InputElement)
    (s k : JSString)
    (hsel : selectionApplies el = true)
    (hpre : el.value.take el.selectionStart = s ++ '#' :: k)
    (hk : k ≠ []) (hmem : ∀ c ∈ k, isTokenChar c = true) :
    handleSpaceInInput templates el =
      if (templates.get k).truthy = true then
        { el := { el with
                  value := storedValue el
                    (el.value.take (el.selectionStart - (k.length + 1)) ++
                      (templates.get k).toJSString ++ [' '] ++ el.value.drop el.selectionStart),
                  selectionStart :=
                    setSelectionRange
                      (storedValue el
                        (el.value.take (el.selectionStart - (k.length + 1)) ++
                          (templates.get k).toJSString ++ [' '] ++
                          el.value.drop el.selectionStart)).length
                      ((templates.get k).length.map
                        (fun n => ((el.selectionStart - (k.length + 1) : Nat) : Int) + n + 1)) },
          inputEvents := 1,
          defaultPrevented := true }
      else .untouched el := by
  have hlen : k.length + 1 ≤ el.selectionStart := by
    have h := congrArg List.length hpre
    rw [List.length_take] at h
    simp only [List.length_append, List.length_cons] at h
    omega
  have hpos : (el.getSelectionStart.map Int.ofNat).getD 0 = (el.selectionStart : Int) := by
    simp [InputElement.getSelectionStart, hsel]
  unfold handleSpaceInInput
  rw [if_neg (not_not.mpr (tagName_of_selectionApplies el hsel))]
  simp only [hpos, slice_zero_natCast, hpre, regexMatch_append_trigger s k hk hmem]
  by_cases ht : (templates.get k).truthy = true
  · rw [if_pos ht, if_neg (not_not.mpr ht)]
    simp only [List.length_cons, sliceFrom_natCast,
      int_sub_natCast_of_le _ _ hlen, slice_zero_natCast]
  · rw [if_neg ht, if_pos ht]

theorem toUnsignedLong_natCast (n : Nat) : toUnsignedLong (some (n : Int)) = some n := by
  have h : ¬ ((n : Int) < 0) := by omega
  simp [toUnsignedLong, h]

theorem setSelectionRange_natCast (len n : Nat) :
    setSelectionRange len (some (n : Int)) = min n len := by
  simp [setSelectionRange, toUnsignedLong_natCast]

theorem templates_get_of_lookup (templates : Templates) (k body : JSString)
    (h : templates.lookup k = some body) : templates.get k = .string body := by
  simp [Templates.get, h]

theorem truthy_string (body : JSString) : (JSValue.string body).truthy = true ↔ body ≠ [] := by
  cases body <;> simp [JSValue.truthy]

/-- Claim C1 at two `<input>` elements.  On `<input type="url">` with value
`#u`, caret 2 and map `{u: "http://x"}` the text before the caret ends with
the span `#u` and the handler writes `http://x ` to `el.value`, but the
control trims the written value: the buffer is `http://x`, not
`"" + "http://x" + " " + ""`, and the caret is 8, not `2 - 2 + 8 + 1 = 9`,
while `preventDefault` is called.  On `<input type="text">` with scenario
A the newline of the body is stripped: the buffer is
`hello Best regards,Alex ` and the caret 24, not 25. -/
theorem input_sanitization_alters_replacement :
    selectionApplies ⟨"INPUT", "url", "#u".toList, 2⟩ = true ∧
    "#u".toList.take 2 = [] ++ '#' :: "u".toList ∧
    List.lookup "u".toList [("u".toList, "http://x".toList)] = some "http://x".toList ∧
    handleSpaceInInput [("u".toList, "http://x".toList)] ⟨"INPUT", "url", "#u".toList, 2⟩ =
      { el := ⟨"INPUT", "url", "http://x".toList, 8⟩, inputEvents := 1,
        defaultPrevented := true } ∧
    "http://x".toList ≠
      "#u".toList.take (2 - ('#' :: "u".toList).length) ++ "http://x".toList ++ [' '] ++
        "#u".toList.drop 2 ∧
    8 ≠ 2 - ('#' :: "u".toList).length + "http://x".toList.length + 1 ∧
    "hello #sig".toList.take 10 = "hello ".toList ++ '#' :: "sig".toList ∧
    handleSpaceInInput [("sig".toList, "Best regards,\nAlex".toList)]
        ⟨"INPUT", "text", "hello #sig".toList, 10⟩ =
      { el := ⟨"INPUT", "text", "hello Best regards,Alex ".toList, 24⟩, inputEvents := 1,
        defaultPrevented := true } ∧
    "hello Best regards,Alex ".toList ≠ "hello Best regards,\nAlex ".toList := by
  decide

/-- The flat handler returns without touching anything when the token is
not a stored key and not the name of a property of `Object.prototype`. -/
theorem handleSpaceInInput_unknown_token (templates : Templates) (el : InputElement)
    (s k : JSString)
    (hsel : selectionApplies el = true)
    (hpre : el.value.take el.selectionStart = s ++ '#' :: k)
    (hk : k ≠ []) (hmem : ∀ c ∈ k, isTokenChar c = true)
    (hown : templates.lookup k = none) (hproto : objectPrototype k = .undefined) :
    handleSpaceInInput templates el = .untouched el := by
  rw [handleSpaceInInput_of_trigger templates el s k hsel hpre hk hmem]
  simp [Templates.get, hown, hproto, JSValue.truthy]

theorem normalizeNewlines_of_no_cr (s : JSString) (h : ∀ c ∈ s, c ≠ '\r') :
    normalizeNewlines s = s := by
  unfold normalizeNewlines
  induction s with
  | nil => rfl
  | cons c rest ih =>
    have hc : c ≠ '\r' := h c (List.mem_cons_self _ _)
    simp only [normalizeNewlinesFrom, if_neg hc, Bool.false_eq_true, and_false, if_false]
    rw [ih (fun d hd => h d (List.mem_cons_of_mem _ hd))]

theorem stripNewlines_of_no_newline (s : JSString) (h : ∀ c ∈ s, c ≠ '\n' ∧ c ≠ '\r') :
    stripNewlines s = s := by
  unfold stripNewlines
  rw [List.filter_eq_self]
  intro c hc
  simp [(h c hc).1, (h c hc).2]

/-- A `<textarea>` keeps a text without carriage return as it is written. -/
theorem storedValue_textarea (el : InputElement) (s : JSString)
    (htag : el.tagName = "TEXTAREA") (h : ∀ c ∈ s, c ≠ '\r') : storedValue el s = s := by
  simp only [storedValue, htag, if_true]
  exact normalizeNewlines_of_no_cr s h

/-- A control without a caret is never written to: on an `<input>` to which
the selection API does not apply the getter `selectionStart` is `null`,
the text before the caret is empty and nothing matches. -/
theorem handleSpaceInInput_without_selection (templates : Templates) (el : InputElement)
    (hsel : selectionApplies el = false) : handleSpaceInInput templates el = .untouched el := by
  unfold handleSpaceInInput
  split
  · rfl
  · have hpos : (el.getSelectionStart.map Int.ofNat).getD 0 = ((0 : Nat) : Int) := by
      simp [InputElement.getSelectionStart, hsel]
    simp only [hpos, slice_zero_natCast, List.take_zero, regexMatch]

/-- Claim C10, as the code has it.  On a hit `"#" + k` the precondition
`caret - len(span) ≥ 0` holds.  When the stored body is not empty the flat
handler writes `b[0 : c - len(span)] + body + " " + b[c :]` to `el.value`,
dispatches one `input` event and calls `preventDefault`; on a control that
stores the written text unchanged the buffer is that text and the caret
`c - len(span) + len(body) + 1`.  A stored body that is the empty string
fails the `!tpl` test and the handler returns without touching anything. -/
theorem handleSpaceInInput_hit_expands_iff_body_nonempty (templates : Templates)
    (el : InputElement) (s k body : JSString)
    (hsel : selectionApplies el = true)
    (hcaret : el.selectionStart ≤ el.value.length)
    (hpre : el.value.take el.selectionStart = s ++ '#' :: k)
    (hk : k ≠ []) (hmem : ∀ c ∈ k, isTokenChar c = true)
    (hbody : templates.lookup k = some body) :
    ('#' :: k).length ≤ el.selectionStart ∧
    (body ≠ [] →
      (handleSpaceInInput templates el).el.value =
        storedValue el
          (el.value.take (el.selectionStart - ('#' :: k).length) ++ body ++ [' '] ++
            el.value.drop el.selectionStart) ∧
      (handleSpaceInInput templates el).inputEvents = 1 ∧
      (handleSpaceInInput templates el).defaultPrevented = true ∧
      (storedValue el
          (el.value.take (el.selectionStart - ('#' :: k).length) ++ body ++ [' '] ++
            el.value.drop el.selectionStart) =
        el.value.take (el.selectionStart - ('#' :: k).length) ++ body ++ [' '] ++
          el.value.drop el.selectionStart →
        handleSpaceInInput templates el =
          { el := { el with
                    value := el.value.take (el.selectionStart - ('#' :: k).length) ++ body ++
                      [' '] ++ el.value.drop el.selectionStart,
                    selectionStart :=
                      el.selectionStart - ('#' :: k).length + body.length + 1 },
            inputEvents := 1,
            defaultPrevented := true })) ∧
    (body = [] → handleSpaceInInput templates el = .untouched el) := by
  have hlen : k.length + 1 ≤ el.selectionStart := by
    have h := congrArg List.length hpre
    rw [List.length_take] at h
    simp only [List.length_append, List.length_cons] at h
    omega
  rw [handleSpaceInInput_of_trigger templates el s k hsel hpre hk hmem,
    templates_get_of_lookup templates k body hbody]
  refine ⟨by simpa using hlen, ?_, ?_⟩
  · intro hne
    rw [if_pos ((truthy_string body).mpr hne)]
    refine ⟨rfl, rfl, rfl, ?_⟩
    intro hstored
    have hpos : ((el.selectionStart - (k.length + 1) : Nat) : Int) + (body.length : Int) + 1 =
        ((el.selectionStart - (k.length + 1) + body.length + 1 : Nat) : Int) := by
      push_cast
      ring
    simp only [JSValue.toJSString, List.length_cons] at hstored ⊢
    rw [hstored]
    simp only [JSValue.length, Option.map_some', hpos,
      setSelectionRange_natCast, List.length_append, List.length_cons, List.length_take,
      List.length_drop, List.length_nil, Nat.zero_add]
    congr 2
    omega
  · intro he
    subst he
    rw [if_neg (by simp [JSValue.truthy])]

/-- Claim C10 at buffer `say #sig`, caret 8, on an `<input type="text">`,
with a non-empty and with an empty stored body. -/
theorem handleSpaceInInput_hit_expands_iff_body_nonempty_witness :
    (handleSpaceInInput [("sig".toList, "Hi".toList)] ⟨"INPUT", "text", "say #sig".toList, 8⟩ =
        { el := ⟨"INPUT", "text", "say Hi ".toList, 7⟩, inputEvents := 1,
          defaultPrevented := true }) ∧
    (handleSpaceInInput [("sig".toList, [])] ⟨"INPUT", "text", "say #sig".toList, 8⟩ =
        .untouched ⟨"INPUT", "text", "say #sig".toList, 8⟩) :=
  ⟨((handleSpaceInInput_hit_expands_iff_body_nonempty [("sig".toList, "Hi".toList)]
      ⟨"INPUT", "text", "say #sig".toList, 8⟩ "say ".toList "sig".toList "Hi".toList
      (by decide) (by decide) (by decide) (by decide) (by decide) (by decide)).2.1
        (by decide)).2.2.2 (by decide),
   (handleSpaceInInput_hit_expands_iff_body_nonempty [("sig".toList, [])]
      ⟨"INPUT", "text", "say #sig".toList, 8⟩ "say ".toList "sig".toList []
      (by decide) (by decide) (by decide) (by decide) (by decide) (by decide)).2.2 rfl⟩

/-- Claim C10 as stated fails for an empty body: with buffer `#x`, caret 2
and map `{x: ""}` the text before the caret ends with the span `#x` and `x`
is present, yet the buffer is not replaced by `"" + " "` and
`preventDefault` is not called. -/
theorem handleSpaceInInput_empty_body_not_expanded :
    ("#x".toList.take 2 = [] ++ '#' :: "x".toList) ∧
    List.lookup "x".toList [("x".toList, ([] : JSString))] = some [] ∧
    (handleSpaceInInput [("x".toList, [])] ⟨"INPUT", "text", "#x".toList, 2⟩).el.value ≠
      "#x".toList.take (2 - ('#' :: "x".toList).length) ++ [] ++ [' '] ++ "#x".toList.drop 2 ∧
    (handleSpaceInInput [("x".toList, [])]
      ⟨"INPUT", "text", "#x".toList, 2⟩).defaultPrevented = false ∧
    handleSpaceInInput [("x".toList, [])] ⟨"INPUT", "text", "#x".toList, 2⟩ =
      .untouched ⟨"INPUT", "text", "#x".toList, 2⟩ := by
  decide

/-- Claim C3 at the token `constructor` with an empty template map: the
lookup `templates["constructor"]` finds the function inherited from
`Object.prototype`, so both handlers replace the span with its source text,
dispatch an `input` event and call `preventDefault`. -/
theorem unknown_token_constructor_is_expanded :
    List.lookup "constructor".toList ([] : Templates) = none ∧
    handleSpaceInInput [] ⟨"INPUT", "text", "#constructor".toList, 12⟩ =
      { el := ⟨"INPUT", "text", "function Object() \x7b [native code] \x7d ".toList, 2⟩,
        inputEvents := 1, defaultPrevented := true } ∧
    (handleSpaceInContentEditable []
        ⟨.element "DIV" "" true [.text "#constructor".toList], some ⟨[0], 12⟩⟩).map
      (fun o => (o.root.textContent, o.selection, o.inputEvents, o.defaultPrevented)) =
      some ("function Object() \x7b [native code] \x7d ".toList, some ⟨[0], 2⟩, [[]], true) := by
  decide

/-! ## Facts about the node tree -/

theorem siblingTextContent_append (as bs : List DomNode) :
    siblingTextContent (as ++ bs) = siblingTextContent as ++ siblingTextContent bs := by
  induction as with
  | nil => simp [siblingTextContent]
  | cons a as ih => simp [siblingTextContent, ih]

theorem siblingTextContent_take_succ (cs : List DomNode) (j : Nat) :
    siblingTextContent (cs.take (j + 1)) =
      siblingTextContent (cs.take j) ++ ((cs[j]?).map DomNode.textContent).getD [] := by
  rw [List.take_succ, siblingTextContent_append]
  cases cs[j]? <;> simp [siblingTextContent]

/-- Siblings none of which is a `Comment` or `ProcessingInstruction` with
data give the walk the text that a range over them has. -/
theorem siblingTextContent_eq_descendantTextList (cs : List DomNode)
    (h : ∀ c ∈ cs, c.textContent = c.descendantText) :
    siblingTextContent cs = descendantTextList cs := by
  induction cs with
  | nil => rfl
  | cons c cs ih =>
    simp only [siblingTextContent, descendantTextList]
    rw [h c (List.mem_cons_self _ _), ih (fun d hd => h d (List.mem_cons_of_mem _ hd))]

theorem nodeAt_child (root : DomNode) (p : NodePath) (n : DomNode) (i : Nat)
    (h : nodeAt root p = some n) : nodeAt root (i :: p) = n.childNodes[i]? := by
  simp [nodeAt, h]

theorem childNodes_withChildNodes_of_child (n c : DomNode) (i : Nat) (cs : List DomNode)
    (h : n.childNodes[i]? = some c) : (n.withChildNodes cs).childNodes = cs := by
  cases n with
  | text d => simp [DomNode.childNodes] at h
  | element tag type ce old => rfl
  | charData kind d => simp [DomNode.childNodes] at h

theorem nodeAt_replaceAt (root : DomNode) (p : NodePath) (new : DomNode)
    (h : (nodeAt root p).isSome = true) : nodeAt (replaceAt root p new) p = some new := by
  induction p generalizing new with
  | nil => rfl
  | cons i p ih =>
    cases hp : nodeAt root p with
    | none => simp [nodeAt, hp] at h
    | some parent =>
      rw [nodeAt_child root p parent i hp] at h
      obtain ⟨c, hc⟩ := Option.isSome_iff_exists.mp h
      have hi : i < parent.childNodes.length := (List.getElem?_eq_some_iff.mp hc).1
      simp only [replaceAt, hp]
      rw [nodeAt_child _ p _ i (ih _ (by simp [hp])),
        childNodes_withChildNodes_of_child parent c i _ hc]
      simp [hi]

theorem editableAncestor_self (root : DomNode) (p : NodePath)
    (h : isEditable (nodeAt root p) = true) : editableAncestor root p = some p := by
  cases p with
  | nil => simp only [editableAncestor, h, if_true]
  | cons i p => simp only [editableAncestor, h, if_true]

/-! ## Facts about the lookback walk -/

theorem sliceFrom_neg_maxLookback (x : JSString) :
    sliceFrom x (-(maxLookback : Int)) = x.drop (x.length - maxLookback) := by
  have hneg : -(maxLookback : Int) < 0 := by
    simp [maxLookback]
  have hnat : ((x.length : Int) + -(maxLookback : Int)).toNat = x.length - maxLookback := by
    omega
  unfold sliceFrom relIndex
  rw [if_pos hneg, hnat]

theorem drop_length_sub_append_of_le (n : Nat) (a b : JSString) (h : n ≤ b.length) :
    (a ++ b).drop ((a ++ b).length - n) = b.drop (b.length - n) := by
  rw [List.length_append, List.drop_append_eq_append_drop]
  have h1 : a.length + b.length - n - a.length = b.length - n := by omega
  have h2 : a.length ≤ a.length + b.length - n := by omega
  rw [h1, List.drop_of_length_le h2, List.nil_append]

/-- The lookback walk started at child number `j` of the region root `el`
visits the previous siblings only: it returns the last `maxLookback`
characters of their text followed by `collected`, or `collected` itself
when that is already long enough. -/
theorem walkLoop_siblings (root : DomNode) (el : NodePath) (region : DomNode)
    (hel : nodeAt root el = some region) (j fuel : Nat) (collected : JSString)
    (hfuel : j + 1 ≤ fuel) :
    walkLoop root el fuel (j :: el) collected =
      some (if collected.length < maxLookback then
        (siblingTextContent (region.childNodes.take j) ++ collected).drop
          ((siblingTextContent (region.childNodes.take j) ++ collected).length - maxLookback)
      else collected) := by
  induction j generalizing fuel collected with
  | zero =>
    obtain ⟨f, rfl⟩ : ∃ f, fuel = f + 1 := ⟨fuel - 1, by omega⟩
    by_cases hc : collected.length < maxLookback
    · simp only [walkLoop, if_pos hc, previousSibling, parentNode, if_true, List.take_zero,
        siblingTextContent, List.nil_append]
      rw [Nat.sub_eq_zero_of_le (Nat.le_of_lt hc), List.drop_zero]
    · simp only [walkLoop, if_neg hc]
  | succ j ih =>
    obtain ⟨f, rfl⟩ : ∃ f, fuel = f + 1 := ⟨fuel - 1, by omega⟩
    by_cases hc : collected.length < maxLookback
    · have ht : textContentOrEmpty root (j :: el) =
          ((region.childNodes[j]?).map DomNode.textContent).getD [] := by
        simp [textContentOrEmpty, nodeAt_child root el region j hel]
      simp only [walkLoop, if_pos hc, previousSibling, sliceFrom_neg_maxLookback, ht]
      rw [ih f _ (by omega), siblingTextContent_take_succ]
      generalize ((region.childNodes[j]?).map DomNode.textContent).getD [] = t
      generalize siblingTextContent (region.childNodes.take j) = pre
      by_cases hlong : (t ++ collected).length < maxLookback
      · have hd : (t ++ collected).drop ((t ++ collected).length - maxLookback) =
            t ++ collected := by
          rw [Nat.sub_eq_zero_of_le (Nat.le_of_lt hlong), List.drop_zero]
        rw [hd, if_pos hlong, List.append_assoc]
      · have hlen : ((t ++ collected).drop ((t ++ collected).length - maxLookback)).length =
            maxLookback := by
          rw [List.length_drop]
          omega
        rw [if_neg (by omega), List.append_assoc,
          drop_length_sub_append_of_le maxLookback pre (t ++ collected) (by omega)]
    · simp only [walkLoop, if_neg hc]

/-- The lookback loop is left within `walkFuel` tests of its condition. -/
theorem walkLoop_isSome (root : DomNode) (el : NodePath) (fuel : Nat) (walkerNode : NodePath)
    (collected : JSString) (hfuel : walkFuel walkerNode ≤ fuel) :
    (walkLoop root el fuel walkerNode collected).isSome = true := by
  induction fuel generalizing walkerNode collected with
  | zero => simp [walkFuel] at hfuel
  | succ fuel ih =>
    unfold walkLoop
    split
    · cases walkerNode with
      | nil => simp [previousSibling, parentNode]
      | cons i p =>
        cases i with
        | zero =>
          simp only [previousSibling, parentNode]
          split
          · rfl
          · exact ih _ _ (by simp [walkFuel] at hfuel ⊢; omega)
        | succ i =>
          simp only [previousSibling]
          exact ih _ _ (by simp [walkFuel] at hfuel ⊢; omega)
    · rfl

/-- The tree handler always runs to its end: the fuel of the lookback loop
never runs out. -/
theorem handleSpaceInContentEditable_isSome (templates : Templates) (page : Page) :
    (handleSpaceInContentEditable templates page).isSome = true := by
  unfold handleSpaceInContentEditable
  cases page.selection with
  | none => rfl
  | some sel =>
    dsimp only
    cases nodeAt page.root sel.anchorNode with
    | none => rfl
    | some anchor =>
      dsimp only
      cases ((if anchor.nodeType = 1 then some sel.anchorNode
          else parentElement page.root sel.anchorNode).bind (editableAncestor page.root)) with
      | none => rfl
      | some el =>
        dsimp only
        have hres : (resolveTextBefore page.root el sel).isSome = true := by
          unfold resolveTextBefore
          cases initialTextBefore page.root el sel with
          | none => rfl
          | some textBefore =>
            have h := walkLoop_isSome page.root el (walkFuel sel.anchorNode) sel.anchorNode
              textBefore (Nat.le_refl _)
            obtain ⟨r, hr⟩ := Option.isSome_iff_exists.mp h
            simp [hr]
        cases hr : resolveTextBefore page.root el sel with
        | none => simp [hr] at hres
        | some r =>
          cases r with
          | none => rfl
          | some textBefore =>
            dsimp only
            cases regexMatch textBefore with
            | none => rfl
            | some m =>
              dsimp only
              split
              · rfl
              · split <;> rfl

/-- The lookback loop never returns more than `maxLookback` characters,
unless the text it started from was already longer. -/
theorem walkLoop_length_le (root : DomNode) (el : NodePath) (fuel : Nat)
    (walkerNode : NodePath) (collected result : JSString)
    (h : walkLoop root el fuel walkerNode collected = some result) :
    result.length ≤ max maxLookback collected.length := by
  induction fuel generalizing walkerNode collected with
  | zero => simp [walkLoop] at h
  | succ fuel ih =>
    have hslice : ∀ t : JSString,
        (sliceFrom (t ++ collected) (-(maxLookback : Int))).length ≤ maxLookback := by
      intro t
      rw [sliceFrom_neg_maxLookback, List.length_drop]
      omega
    unfold walkLoop at h
    split at h
    · cases walkerNode with
      | nil =>
        simp only [previousSibling, parentNode] at h
        rw [← Option.some.inj h]
        exact Nat.le_max_right _ _
      | cons i p =>
        cases i with
        | zero =>
          simp only [previousSibling, parentNode] at h
          split at h
          · rw [← Option.some.inj h]
            exact Nat.le_max_right _ _
          · have := ih _ _ h
            have := hslice (textContentOrEmpty root p)
            omega
        | succ i =>
          simp only [previousSibling] at h
          have := ih _ _ h
          have := hslice (textContentOrEmpty root (i :: p))
          omega
    · rw [← Option.some.inj h]
      exact Nat.le_max_right _ _

/-! ## Facts about the tree handler, caret in a text child of the region root -/

theorem relativePath_child (el : NodePath) (i : Nat) : relativePath el (i :: el) = [i] := by
  simp [relativePath]

theorem validBoundary_text (root : DomNode) (p : NodePath) (d : JSString) (off : Nat)
    (h : nodeAt root p = some (.text d)) (hoff : off ≤ d.length) :
    validBoundary root p off = true := by
  simp [validBoundary, h, DomNode.length, hoff]

theorem rangeTextBefore_text_child (root : DomNode) (el : NodePath) (region : DomNode)
    (i off : Nat) (d : JSString) (hel : nodeAt root el = some region)
    (hanchor : region.childNodes[i]? = some (.text d)) (hoff : off ≤ d.length) :
    rangeTextBefore root el (i :: el) off =
      some (descendantTextList (region.childNodes.take i) ++ d.take off) := by
  have hnode : nodeAt root (i :: el) = some (.text d) := by
    rw [nodeAt_child root el region i hel, hanchor]
  unfold rangeTextBefore
  rw [validBoundary_text root _ d off hnode hoff, if_pos rfl, hel, relativePath_child]
  cases region with
  | text d' => simp [DomNode.childNodes] at hanchor
  | charData kind d' => simp [DomNode.childNodes] at hanchor
  | element tag type ce cs =>
    simp only [DomNode.childNodes] at hanchor
    simp [textBeforeIn, DomNode.childNodes, hanchor]

theorem rangeTextAfter_text_child (root : DomNode) (el : NodePath) (region : DomNode)
    (i off : Nat) (d : JSString) (hel : nodeAt root el = some region)
    (hanchor : region.childNodes[i]? = some (.text d)) (hoff : off ≤ d.length) :
    rangeTextAfter root el (i :: el) off =
      some (d.drop off ++ descendantTextList (region.childNodes.drop (i + 1))) := by
  have hnode : nodeAt root (i :: el) = some (.text d) := by
    rw [nodeAt_child root el region i hel, hanchor]
  unfold rangeTextAfter
  rw [validBoundary_text root _ d off hnode hoff, if_pos rfl, hel, relativePath_child]
  cases region with
  | text d' => simp [DomNode.childNodes] at hanchor
  | charData kind d' => simp [DomNode.childNodes] at hanchor
  | element tag type ce cs =>
    simp only [DomNode.childNodes] at hanchor
    simp [textAfterIn, DomNode.childNodes, hanchor]

/-- The text that is matched when the caret is in a text child of the
region root: the text of the anchor node before the caret when that is at
least `maxLookback` long, otherwise the last `maxLookback` characters of
the `textContent` of the previous siblings followed by that text. -/
theorem resolveTextBefore_text_child (root : DomNode) (el : NodePath) (region : DomNode)
    (i off : Nat) (d : JSString) (hel : nodeAt root el = some region)
    (hanchor : region.childNodes[i]? = some (.text d)) :
    resolveTextBefore root el ⟨i :: el, off⟩ =
      some (some (if (d.take off).length < maxLookback then
        (siblingTextContent (region.childNodes.take i) ++ d.take off).drop
          ((siblingTextContent (region.childNodes.take i) ++ d.take off).length - maxLookback)
      else d.take off)) := by
  have hnode : nodeAt root (i :: el) = some (.text d) := by
    rw [nodeAt_child root el region i hel, hanchor]
  simp only [resolveTextBefore, initialTextBefore, hnode, slice_zero_natCast]
  rw [walkLoop_siblings root el region hel i _ _ (by simp [walkFuel]; omega)]
  rfl

/-- A suffix of the text before the caret that is long enough to hold the
trigger span ends with the span. -/
theorem ends_with_span_of_suffix (collected pre s span : JSString)
    (hsuf : collected <:+ pre) (hpre : pre = s ++ span)
    (hlen : span.length ≤ collected.length) : ∃ s', collected = s' ++ span := by
  have hspan : span <:+ pre := ⟨s, hpre.symm⟩
  obtain ⟨s', hs'⟩ := List.suffix_of_suffix_length_le hspan hsuf hlen
  exact ⟨s', hs'.symm⟩

/-- With the caret in a text child of the region root and no `Comment` or
`ProcessingInstruction` with data among the previous siblings, the text
that is matched is a suffix of the region text before the caret. -/
theorem resolveTextBefore_suffix_text_child (root : DomNode) (el : NodePath)
    (region : DomNode) (i off : Nat) (d pre : JSString)
    (hel : nodeAt root el = some region)
    (hanchor : region.childNodes[i]? = some (.text d)) (hoff : off ≤ d.length)
    (hsiblings : ∀ c ∈ region.childNodes.take i, c.textContent = c.descendantText)
    (hpre : rangeTextBefore root el (i :: el) off = some pre) :
    ∃ textBefore, resolveTextBefore root el ⟨i :: el, off⟩ = some (some textBefore) ∧
      textBefore <:+ pre := by
  rw [rangeTextBefore_text_child root el region i off d hel hanchor hoff] at hpre
  rw [← Option.some.inj hpre,
    ← siblingTextContent_eq_descendantTextList _ hsiblings]
  refine ⟨_, resolveTextBefore_text_child root el region i off d hel hanchor, ?_⟩
  split
  · exact List.drop_suffix _ _
  · exact List.suffix_append _ _

/-- The tree handler returns without touching anything when the matched
token is not a stored key and not the name of a property of
`Object.prototype`. -/
theorem handleSpaceInContentEditable_unknown_token (templates : Templates) (page : Page)
    (sel : Selection) (anchor : DomNode) (el : NodePath) (textBefore : JSString)
    (m : MatchResult)
    (hsel : page.selection = some sel)
    (hnode : nodeAt page.root sel.anchorNode = some anchor)
    (hel : (if anchor.nodeType = 1 then some sel.anchorNode
        else parentElement page.root sel.anchorNode).bind (editableAncestor page.root) = some el)
    (hres : resolveTextBefore page.root el sel = some (some textBefore))
    (hm : regexMatch textBefore = some m)
    (hown : templates.lookup m.token = none) (hproto : objectPrototype m.token = .undefined) :
    handleSpaceInContentEditable templates page = some (.untouched page) := by
  simp [handleSpaceInContentEditable, hsel, hnode, hel, hres, hm, Templates.get, hown, hproto,
    JSValue.truthy]

/-- The tree that the primary path leaves behind, whatever happens to the
caret afterwards. -/
theorem primaryPath_root (templates : Templates) (page : Page) (el : NodePath)
    (sel : Selection) (m : MatchResult) (preText : JSString)
    (hpre : rangeTextBefore page.root el sel.anchorNode sel.anchorOffset = some preText) :
    (primaryPath templates page el sel m).root =
      setTextContent page.root el
        (slice preText 0 ((preText.length : Int) - m.span.length) ++
          (templates.get m.token).toJSString ++ [' '] ++
          (rangeTextAfter page.root el sel.anchorNode sel.anchorOffset).getD []) := by
  unfold primaryPath
  simp only [hpre]
  split
  · split <;> rfl
  · rfl

theorem setTextContent_of_nonempty (root : DomNode) (el : NodePath) (tag type : String)
    (ce : Bool) (cs : List DomNode) (x : JSString)
    (hel : nodeAt root el = some (.element tag type ce cs)) (hx : x ≠ []) :
    nodeAt (setTextContent root el x) el = some (.element tag type ce [.text x]) := by
  have hne : x.isEmpty = false := by cases x <;> simp_all
  simp only [setTextContent, hel, DomNode.withChildNodes, hne]
  exact nodeAt_replaceAt root el _ (by simp [hel])

/-- The primary path after a match of `"#" + k` that ends the region text
before the caret, with a string stored for `k`. -/
theorem primaryPath_of_trigger (templates : Templates) (root : DomNode) (el node : NodePath)
    (tag type : String) (ce : Bool) (cs : List DomNode) (off : Nat)
    (s k body pre post : JSString) (psel : Option Selection)
    (hel : nodeAt root el = some (.element tag type ce cs))
    (hpre : rangeTextBefore root el node off = some pre)
    (hpost : rangeTextAfter root el node off = some post)
    (htrigger : pre = s ++ '#' :: k)
    (hbody : templates.lookup k = some body) :
    primaryPath templates ⟨root, psel⟩ el ⟨node, off⟩ ⟨'#' :: k, k⟩ =
      { root := setTextContent root el (s ++ body ++ [' '] ++ post),
        selection := some ⟨0 :: el, s.length + body.length + 1⟩,
        inputEvents := [el],
        defaultPrevented := true,
        threw := false } := by
  have hstart : ((pre.length : Int) - ((k.length + 1 : Nat) : Int)) = (s.length : Int) := by
    rw [htrigger]
    simp only [List.length_append, List.length_cons]
    omega
  have hslice : slice pre 0 (s.length : Int) = s := by
    rw [slice_zero_natCast, htrigger, List.take_left']
    rfl
  have hnew : s ++ body ++ [' '] ++ post ≠ [] := by simp
  have hregion := setTextContent_of_nonempty root el tag type ce cs _ hel hnew
  have hfirst : nodeAt (setTextContent root el (s ++ body ++ [' '] ++ post)) (0 :: el) =
      some (.text (s ++ body ++ [' '] ++ post)) := by
    rw [nodeAt_child _ el _ 0 hregion]
    rfl
  have hcaret : ((s.length : Int) + (body.length : Int) + 1) =
      ((s.length + body.length + 1 : Nat) : Int) := by
    push_cast
    ring
  have hmin : min ((s.length + body.length + 1 : Nat) : Int)
      ((s.length + body.length + 1 + post.length : Nat) : Int) =
      ((s.length + body.length + 1 : Nat) : Int) := by
    omega
  have hfind : ((nodeAt (setTextContent root el (s ++ body ++ [' '] ++ post)) el).bind
      fun a => findTextNode a) = some [0] := by
    rw [hregion]
    rfl
  have hvalid : validBoundary (setTextContent root el (s ++ body ++ [' '] ++ post)) (0 :: el)
      (s.length + body.length + 1) = true :=
    validBoundary_text _ (0 :: el) _ _ hfirst (by simp; omega)
  simp only [primaryPath, hpre, hpost, Option.getD_some, hstart, hslice,
    templates_get_of_lookup templates k body hbody, JSValue.toJSString, JSValue.length,
    Option.map_some', hfind, List.reverse_cons, List.reverse_nil, List.nil_append,
    List.singleton_append, nodeLength, hfirst, DomNode.length, mathMin, hcaret,
    List.length_append, List.length_cons, List.length_nil, Nat.zero_add, hmin, setStart,
    toUnsignedLong_natCast, hvalid, if_true]

/-- Claim C4, as the code has it.  Tree replacement with the caret in a
text node that is a direct child of the region root, none of whose previous
siblings is a `Comment` or `ProcessingInstruction` with data: when the
region text `pre` before the caret ends with a trigger span `"#" + k` that
fits in the lookback window (at most `maxLookback` characters), and the map
stores a non-empty body for `k`, the handler replaces the
content of the region by one text node holding
`pre[0 : startIndex] + body + " " + post`, `startIndex = len(pre) - len(span)`,
and puts the caret into that node (the first text leaf) at offset
`startIndex + len(body) + 1`, which is within the node, so the clamp leaves
it unchanged; one `input` event is dispatched and `preventDefault` called. -/
theorem handleSpaceInContentEditable_replaces (templates : Templates) (root : DomNode)
    (el : NodePath) (tag type : String) (ce : Bool) (cs : List DomNode) (i off : Nat)
    (d s k body pre post : JSString)
    (hel : nodeAt root el = some (.element tag type ce cs))
    (hedit : isEditable (some (.element tag type ce cs)) = true)
    (hanchor : cs[i]? = some (.text d)) (hoff : off ≤ d.length)
    (hsiblings : ∀ c ∈ cs.take i, c.textContent = c.descendantText)
    (hpre : rangeTextBefore root el (i :: el) off = some pre)
    (hpost : rangeTextAfter root el (i :: el) off = some post)
    (htrigger : pre = s ++ '#' :: k)
    (hk : k ≠ []) (hmem : ∀ c ∈ k, isTokenChar c = true)
    (hbody : templates.lookup k = some body) (hne : body ≠ [])
    (hwindow : ('#' :: k).length ≤ maxLookback) :
    ∃ out : EditOutcome,
      handleSpaceInContentEditable templates ⟨root, some ⟨i :: el, off⟩⟩ = some out ∧
      out.root = setTextContent root el
        (pre.take (pre.length - ('#' :: k).length) ++ body ++ [' '] ++ post) ∧
      (nodeAt out.root el).map DomNode.textContent =
        some (pre.take (pre.length - ('#' :: k).length) ++ body ++ [' '] ++ post) ∧
      (nodeAt out.root el).bind findTextNode = some [0] ∧
      nodeAt out.root (0 :: el) =
        some (.text (pre.take (pre.length - ('#' :: k).length) ++ body ++ [' '] ++ post)) ∧
      out.selection = some ⟨0 :: el, pre.length - ('#' :: k).length + body.length + 1⟩ ∧
      pre.length - ('#' :: k).length + body.length + 1 ≤
        (pre.take (pre.length - ('#' :: k).length) ++ body ++ [' '] ++ post).length ∧
      out.inputEvents = [el] ∧ out.defaultPrevented = true ∧ out.threw = false := by
  have hnode : nodeAt root (i :: el) = some (.text d) := by
    rw [nodeAt_child root el _ i hel]
    exact hanchor
  have hpre' := rangeTextBefore_text_child root el _ i off d hel hanchor hoff
  rw [hpre] at hpre'
  have hpreEq : pre = descendantTextList (cs.take i) ++ d.take off := Option.some.inj hpre'
  have hoffLen : (d.take off).length = off := by
    rw [List.length_take]
    exact Nat.min_eq_left hoff
  -- the text that is matched ends with the span
  obtain ⟨s', hs'⟩ : ∃ s', (if (d.take off).length < maxLookback then
        (descendantTextList (cs.take i) ++ d.take off).drop
          ((descendantTextList (cs.take i) ++ d.take off).length - maxLookback)
      else d.take off) = s' ++ '#' :: k := by
    have hspanLen : ('#' :: k).length ≤ pre.length := by
      rw [htrigger, List.length_append]
      omega
    split
    · next hshort =>
      refine ends_with_span_of_suffix _ pre s _ ?_ htrigger ?_
      · rw [hpreEq]
        exact List.drop_suffix _ _
      · rw [List.length_drop, ← hpreEq]
        rw [hoffLen] at hshort
        omega
    · next hlong =>
      refine ends_with_span_of_suffix _ pre s _ ?_ htrigger ?_
      · rw [hpreEq]
        exact List.suffix_append _ _
      · rw [hoffLen] at hlong ⊢
        omega
  have hresolve := resolveTextBefore_text_child root el _ i off d hel hanchor
  simp only [DomNode.childNodes] at hresolve
  rw [siblingTextContent_eq_descendantTextList _ hsiblings, hs'] at hresolve
  have hparent : parentElement root (i :: el) = some el := by
    simp [parentElement, parentNode, hel]
  have hancestor : editableAncestor root el = some el :=
    editableAncestor_self root el (by rw [hel]; exact hedit)
  have hstart : setStart root (i :: el)
      (some (max 0 ((off : Int) - ((('#' :: k).length : Nat) : Int)))) =
      some (off - ('#' :: k).length) := by
    have hcast : max 0 ((off : Int) - ((('#' :: k).length : Nat) : Int)) =
        ((off - ('#' :: k).length : Nat) : Int) := by
      omega
    rw [hcast]
    simp only [setStart, toUnsignedLong_natCast]
    rw [validBoundary_text root _ d _ hnode (by omega), if_pos rfl]
  have hstartIndex : pre.length - ('#' :: k).length = s.length := by
    rw [htrigger, List.length_append]
    omega
  have htake : pre.take s.length = s := by
    rw [htrigger, List.take_left']
    rfl
  have hprimary := primaryPath_of_trigger templates root el (i :: el) tag type ce cs off
    s k body pre post (some ⟨i :: el, off⟩) hel hpre hpost htrigger hbody
  have hnew : s ++ body ++ [' '] ++ post ≠ [] := by simp
  have hregion := setTextContent_of_nonempty root el tag type ce cs _ hel hnew
  refine ⟨{ root := setTextContent root el (s ++ body ++ [' '] ++ post),
            selection := some ⟨0 :: el, s.length + body.length + 1⟩,
            inputEvents := [el], defaultPrevented := true, threw := false }, ?_, ?_⟩
  · simp only [handleSpaceInContentEditable, hnode, DomNode.nodeType, hparent,
      Option.some_bind, hancestor, hresolve, regexMatch_append_trigger s' k hk hmem,
      templates_get_of_lookup templates k body hbody, (truthy_string body).mpr hne,
      OfNat.ofNat_ne_one, if_false, not_true_eq_false, hstart, hprimary]
  · rw [hstartIndex, htake]
    refine ⟨rfl, ?_, ?_, ?_, rfl, ?_, rfl, rfl, rfl⟩
    · rw [hregion]
      simp [DomNode.textContent, descendantTextList, DomNode.descendantText]
    · rw [hregion]
      rfl
    · rw [nodeAt_child _ el _ 0 hregion]
      rfl
    · simp only [List.length_append, List.length_cons, List.length_nil]
      omega

/-- Claim C4 at scenario B: text nodes `Hi ` and `team #sig`, the caret at
the end of the second, map `{sig: "Best regards,\nAlex"}`; the region text
becomes `Hi team Best regards,\nAlex ` and the caret offset 27. -/
theorem handleSpaceInContentEditable_replaces_witness :
    ∃ out : EditOutcome,
      handleSpaceInContentEditable sigTemplates ⟨scenarioB, some ⟨[1, 0], 9⟩⟩ = some out ∧
      out.root = setTextContent scenarioB [0] "Hi team Best regards,\nAlex ".toList ∧
      (nodeAt out.root [0]).map DomNode.textContent =
        some "Hi team Best regards,\nAlex ".toList ∧
      (nodeAt out.root [0]).bind findTextNode = some [0] ∧
      nodeAt out.root [0, 0] = some (.text "Hi team Best regards,\nAlex ".toList) ∧
      out.selection = some ⟨[0, 0], 27⟩ ∧
      27 ≤ "Hi team Best regards,\nAlex ".toList.length ∧
      out.inputEvents = [[0]] ∧ out.defaultPrevented = true ∧ out.threw = false :=
  handleSpaceInContentEditable_replaces sigTemplates scenarioB [0] "DIV" "" true
    [.text "Hi ".toList, .text "team #sig".toList] 1 9 "team #sig".toList "Hi team ".toList
    "sig".toList "Best regards,\nAlex".toList "Hi team #sig".toList [] rfl rfl rfl (by decide)
    (by decide) rfl rfl rfl (by decide) (by decide) rfl (by decide) (by decide)

/-- Claim C4 as stated fails when the span does not fit in the lookback
window: with the text nodes `#` and two hundred `a`, the caret at the end
of the second and a body stored for the token of two hundred `a`, the
region text before the caret ends with the span, yet the handler matches
nothing and leaves the region, the caret and the key event alone. -/
theorem handleSpaceInContentEditable_span_beyond_window :
    nodeAt longTokenRegion [] =
      some (.element "DIV" "" true [.text ['#'], .text (List.replicate 200 'a')]) ∧
    isEditable (nodeAt longTokenRegion []) = true ∧
    nodeAt longTokenRegion [1] = some (.text (List.replicate 200 'a')) ∧
    (∀ c ∈ List.replicate 200 'a', isTokenChar c = true) ∧
    rangeTextBefore longTokenRegion [] [1] 200 = some ([] ++ '#' :: List.replicate 200 'a') ∧
    rangeTextAfter longTokenRegion [] [1] 200 = some [] ∧
    List.lookup (List.replicate 200 'a') [(List.replicate 200 'a', "x".toList)] =
      some "x".toList ∧
    (handleSpaceInContentEditable [(List.replicate 200 'a', "x".toList)]
        ⟨longTokenRegion, some ⟨[1], 200⟩⟩).map
      (fun o => (o.root.textContent, o.selection, o.inputEvents, o.defaultPrevented)) =
      some ('#' :: List.replicate 200 'a', some ⟨[1], 200⟩, [], false) ∧
    '#' :: List.replicate 200 'a' ≠
      ('#' :: List.replicate 200 'a').take (201 - 201) ++ "x".toList ++ [' '] ++ [] := by
  refine ⟨rfl, rfl, rfl, ?_, rfl, rfl, ?_, ?_, by decide⟩
  · intro c hc
    rw [List.eq_of_mem_replicate hc]
    rfl
  · decide
  · rfl

/-- A `Comment` between the text nodes `hello #si` and `g`, caret at the end
of `g`: the region text before the caret is `hello #sig`, but the walk
reads the `textContent` of the comment, the text that is matched is
`hello #sixg`, no template is stored for `sixg` and nothing is replaced. -/
theorem comment_sibling_data_is_scanned :
    rangeTextBefore commentSiblingRegion [] [2] 1 = some "hello #sig".toList ∧
    resolveTextBefore commentSiblingRegion [] ⟨[2], 1⟩ = some (some "hello #sixg".toList) ∧
    (handleSpaceInContentEditable sigTemplates ⟨commentSiblingRegion, some ⟨[2], 1⟩⟩).map
      (fun o => (o.root.textContent, o.selection, o.inputEvents, o.defaultPrevented)) =
      some ("hello #sig".toList, some ⟨[2], 1⟩, [], false) := by
  decide

/-- Claim C5 at a single-leaf region whose leaf is nested: the only text
node `#sig` sits in a non-editable `<span>` inside the editable `<div>`,
caret at offset 0 of the leaf.  The walk prepends the text of the `<span>`
to the empty text before the caret, the tree handler matches `#sig` and
rewrites the region to `Best regards,\nAlex #sig`, while the flat handler on
buffer `#sig` with caret 0 changes nothing. -/
theorem nested_single_leaf_differs_from_flat :
    (parentElement nestedLeaf [0, 0]).bind (editableAncestor nestedLeaf) = some [] ∧
    nestedLeaf.textContent = "#sig".toList ∧
    (handleSpaceInContentEditable sigTemplates ⟨nestedLeaf, some ⟨[0, 0], 0⟩⟩).map
      (fun o => (o.root.textContent, o.defaultPrevented)) =
      some ("Best regards,\nAlex #sig".toList, true) ∧
    handleSpaceInInput sigTemplates ⟨"TEXTAREA", "textarea", "#sig".toList, 0⟩ =
      .untouched ⟨"TEXTAREA", "textarea", "#sig".toList, 0⟩ := by
  decide

/-- Claim C6 at a text node of 201 characters, `#` followed by two hundred
`a`, with the caret at its end: the text that is matched is the whole node
text, 201 characters long, the matched span has 201 characters, and the
template stored for the token is inserted. -/
theorem lookback_text_exceeds_window :
    (resolveTextBefore longTextRegion [] ⟨[0], 201⟩).map (Option.map List.length) =
      some (some 201) ∧
    ((resolveTextBefore longTextRegion [] ⟨[0], 201⟩).map
      (Option.map fun t => (regexMatch t).map fun m => m.span.length)) =
      some (some (some 201)) ∧
    (handleSpaceInContentEditable [(List.replicate 200 'a', "x".toList)]
        ⟨longTextRegion, some ⟨[0], 201⟩⟩).map
      (fun o => (o.root.textContent, o.selection, o.defaultPrevented)) =
      some ("x ".toList, some ⟨[0], 2⟩, true) := by
  refine ⟨?_, ?_, ?_⟩ <;> rfl

/-- Claim C7 at an empty editable `<div>` that follows the paragraph
`use #sig`, with the caret at `(div, 0)`: the span `#sig` is matched and its
template found, the region text before the caret is empty, so
`startIndex = 0 - 4 < 0`; the handler still rewrites the region, moves the
caret, dispatches an `input` event and calls `preventDefault`. -/
theorem negative_start_index_still_replaces :
    editableAncestor emptyRegionAfterText [1, 1] = some [1, 1] ∧
    (resolveTextBefore emptyRegionAfterText [1, 1] ⟨[1, 1], 0⟩).map
      (Option.map regexMatch) = some (some (some ⟨"#sig".toList, "sig".toList⟩)) ∧
    sigTemplates.get "sig".toList = .string "Best regards,\nAlex".toList ∧
    rangeTextBefore emptyRegionAfterText [1, 1] [1, 1] 0 = some [] ∧
    (([] : JSString).length : Int) - ("#sig".toList.length : Int) < 0 ∧
    (handleSpaceInContentEditable sigTemplates
        ⟨emptyRegionAfterText, some ⟨[1, 1], 0⟩⟩).map
      (fun o => ((nodeAt o.root [1, 1]).map DomNode.textContent, o.selection, o.inputEvents,
        o.defaultPrevented, o.threw)) =
      some (some "Best regards,\nAlex ".toList, some ⟨[0, 1, 1], 15⟩, [[1, 1]], true, false) := by
  decide

/-- Claim C8 at the same page, caret at `(div, 0)` with the editable `<div>`
as region: the walk starts at the region root itself, steps to its previous
sibling `<p>` and collects `use #sig`, then climbs to `<body>` and to
`<html>` and collects their text as well, although the region holds no
text. -/
theorem lookback_leaves_region_from_root_anchor :
    nodeAt emptyRegionAfterText [1, 1] = some (.element "DIV" "" true []) ∧
    editableAncestor emptyRegionAfterText [1, 1] = some [1, 1] ∧
    (nodeAt emptyRegionAfterText [1, 1]).map DomNode.textContent = some [] ∧
    previousSibling [1, 1] = some [0, 1] ∧
    textContentOrEmpty emptyRegionAfterText [0, 1] = "use #sig".toList ∧
    resolveTextBefore emptyRegionAfterText [1, 1] ⟨[1, 1], 0⟩ =
      some (some "use #siguse #siguse #sig".toList) := by
  refine ⟨rfl, ?_, ?_, ?_, ?_, ?_⟩ <;> decide

/-- Claim C9 at a text node `#sig` inside a non-editable `<span>` inside the
editable `<div>`, caret at the end of the node: the region text before the
caret is `#sig`, and the resolved text is `#sig#sig`, which is not a suffix
of it. -/
theorem resolved_text_not_suffix_when_nested :
    (parentElement nestedLeaf [0, 0]).bind (editableAncestor nestedLeaf) = some [] ∧
    rangeTextBefore nestedLeaf [] [0, 0] 4 = some "#sig".toList ∧
    resolveTextBefore nestedLeaf [] ⟨[0, 0], 4⟩ = some (some "#sig#sig".toList) ∧
    ¬ ("#sig#sig".toList <:+ "#sig".toList) := by
  decide

end GptPromptTemplates
